import Mathlib

/-!
# Verification of abinit_bands_to_csv.py

Shallow embedding of the band-structure extractor in
src/abinit_bands_to_csv.py and proofs about it.

Modelling conventions:
* A line of text is a Lean String (a list of characters).  Python regular
  expression searches are embedded as explicit character-list scanners.
  The three patterns of the source (header, coords, value) are simple
  enough that greedy matching with backtracking is equivalent to
  maximal-munch scanning: every pair of adjacent sub-patterns uses
  disjoint character classes, so no backtracking can succeed where the
  maximal munch fails.  The searches try every start position from the
  left, exactly as re.search / re.findall do.
* Python float64 values are modelled as exact rationals; the square root
  has no exact rational counterpart, so the converter is parameterised by
  an abstract function standing for math.sqrt.  Claims constrain it only
  through hypotheses that float64 sqrt satisfies (nonnegativity on
  nonnegative arguments, exact values at 0 and 1).
* The word-character class of the header pattern is modelled on ASCII
  (letters, digits, underscore); all inputs in the claims are ASCII.
-/

namespace AbinitBands

/-- ASCII model of the regular-expression word class used in the header
pattern. -/
def isWordChar (c : Char) : Bool := c.isAlphanum || c == '_'

/-- The character class of the value/coordinate token pattern in the
source: a minus sign, a decimal digit, or a dot. -/
def isValChar (c : Char) : Bool := c == '-' || c.isDigit || c == '.'

/-- Match a literal list of characters at the front of the input,
returning the rest of the input on success. -/
def dropLit : List Char → List Char → Option (List Char)
  | [], s => some s
  | _ :: _, [] => none
  | p :: ps, c :: cs => if c == p then dropLit ps cs else none

/-- Attempt the header pattern of the source,
"Eigenvalues \\( *(\\w+) *\\) for nkpt= *([0-9]+) *k points:",
anchored at the start of the given character list.  Returns the two
captured groups (the unit word and the digit string). -/
def matchHeaderAt (s : List Char) : Option (List Char × List Char) :=
  match dropLit "Eigenvalues (".data s with
  | none => none
  | some s1 =>
    let s2 := s1.dropWhile (· == ' ')
    let w := s2.takeWhile isWordChar
    if w.isEmpty then none else
    let s3 := (s2.dropWhile isWordChar).dropWhile (· == ' ')
    match dropLit ") for nkpt=".data s3 with
    | none => none
    | some s4 =>
      let s5 := s4.dropWhile (· == ' ')
      let d := s5.takeWhile Char.isDigit
      if d.isEmpty then none else
      let s6 := (s5.dropWhile Char.isDigit).dropWhile (· == ' ')
      match dropLit "k points:".data s6 with
      | none => none
      | some _ => some (w, d)

/-- Leftmost search of the header pattern: try every start position from
the left, as re.search does.  (The pattern cannot match the empty
suffix, so stopping at the empty list is faithful.) -/
def searchHeaderAux : List Char → Option (List Char × List Char)
  | [] => none
  | c :: rest =>
    match matchHeaderAt (c :: rest) with
    | some r => some r
    | none => searchHeaderAux rest

/-- re.search of the header pattern on a line, returning the captured
unit and k-point-count strings. -/
def searchHeader (s : String) : Option (String × String) :=
  (searchHeaderAux s.data).map (fun p => (⟨p.1⟩, ⟨p.2⟩))

/-- Attempt the coordinate pattern of the source,
"kpt= +([\\-0-9\\.]+) +([\\-0-9\\.]+) +([\\-0-9\\.]+)",
anchored at the start of the given character list.  Returns the three
captured number tokens. -/
def matchCoordsAt (s : List Char) : Option (List Char × List Char × List Char) :=
  match dropLit "kpt=".data s with
  | none => none
  | some s1 =>
    if (s1.takeWhile (· == ' ')).isEmpty then none else
    let s2 := s1.dropWhile (· == ' ')
    let t1 := s2.takeWhile isValChar
    if t1.isEmpty then none else
    let s3 := s2.dropWhile isValChar
    if (s3.takeWhile (· == ' ')).isEmpty then none else
    let s4 := s3.dropWhile (· == ' ')
    let t2 := s4.takeWhile isValChar
    if t2.isEmpty then none else
    let s5 := s4.dropWhile isValChar
    if (s5.takeWhile (· == ' ')).isEmpty then none else
    let s6 := s5.dropWhile (· == ' ')
    let t3 := s6.takeWhile isValChar
    if t3.isEmpty then none else
    some (t1, t2, t3)

/-- Leftmost search of the coordinate pattern, as re.search does. -/
def searchCoordsAux : List Char → Option (List Char × List Char × List Char)
  | [] => none
  | c :: rest =>
    match matchCoordsAt (c :: rest) with
    | some r => some r
    | none => searchCoordsAux rest

/-- re.search of the coordinate pattern on a line. -/
def searchCoords (s : String) : Option (List Char × List Char × List Char) :=
  searchCoordsAux s.data

theorem dropWhile_length_le (p : Char → Bool) (l : List Char) :
    (l.dropWhile p).length ≤ l.length := by
  induction l with
  | nil => simp
  | cons c rest ih =>
    by_cases h : p c
    · rw [List.dropWhile_cons, if_pos h]
      exact Nat.le_succ_of_le ih
    · rw [List.dropWhile_cons, if_neg h]

/-- re.findall of the value pattern "([\\-0-9\\.]+)" on a line: the
maximal runs of value-class characters, in left-to-right order,
duplicates kept. -/
def tokenizeVal : List Char → List (List Char)
  | [] => []
  | c :: rest =>
    if isValChar c then
      (c :: rest.takeWhile isValChar) :: tokenizeVal (rest.dropWhile isValChar)
    else
      tokenizeVal rest
termination_by l => l.length
decreasing_by
  · simp only [List.length_cons]
    exact Nat.lt_succ_of_le (dropWhile_length_le isValChar rest)
  · simp

/-- int() applied to a captured digit string. -/
def digitsToNat (l : List Char) : Nat := l.foldl (fun n c => 10 * n + (c.toNat - 48)) 0

/-- Modelled from the spec: Python's float() applied to an unsigned
decimal token (digits, optionally a dot and fraction digits), with the
float64 value represented as an exact rational.  Malformed tokens (the
defensive MalformedNumberError of the spec) are out of scope; on them
this model returns a best-effort value instead of failing. -/
def parseUnsigned (l : List Char) : ℚ :=
  let ip := l.takeWhile Char.isDigit
  match l.dropWhile Char.isDigit with
  | '.' :: frac =>
    let fd := frac.takeWhile Char.isDigit
    (digitsToNat ip : ℚ) + (digitsToNat fd : ℚ) / (10 : ℚ) ^ fd.length
  | _ => (digitsToNat ip : ℚ)

/-- Modelled from the spec: Python's float() on a possibly-negative
decimal token. -/
def parseDec (l : List Char) : ℚ :=
  match l with
  | '-' :: rest => - parseUnsigned rest
  | _ => parseUnsigned l

/-- One dataset as built by find_datasets: the captured unit string, the
captured k-point-count string (kept as a string, exactly as the source
stores it), and the verbatim block lines. -/
structure RawDataset where
  unit : String
  nkpt : String
  lines : List String
deriving DecidableEq, Repr

/-- datasets[-1][2].append(line): append a line to the lines of the last
dataset of the list.  (The source can only reach this with a non-empty
list, since the countdown is positive only after a header appended a
dataset.) -/
def appendToLast : List RawDataset → String → List RawDataset
  | [], _ => []
  | [d], l => [{ d with lines := d.lines ++ [l] }]
  | d :: d₂ :: ds, l => d :: appendToLast (d₂ :: ds) l

/-- The loop of find_datasets: the accumulated dataset list together
with the data_lines_ahead countdown.  In the countdown-zero state a
header match appends a fresh dataset and restarts the countdown at
twice the declared point count; otherwise the line is appended to the
last dataset and the countdown decremented.  The final countdown is
returned too (it is positive exactly when the stream ended inside a
declared block). -/
def findDatasetsAux : List String → List RawDataset → Nat → List RawDataset × Nat
  | [], acc, k => (acc, k)
  | line :: rest, acc, 0 =>
    match searchHeader line with
    | some (u, n) => findDatasetsAux rest (acc ++ [⟨u, n, []⟩]) (digitsToNat n.data * 2)
    | none => findDatasetsAux rest acc 0
  | line :: rest, acc, k + 1 => findDatasetsAux rest (appendToLast acc line) k

/-- find_datasets from the source: scan the whole line stream once and
return the datasets in discovery order. -/
def findDatasets (lines : List String) : List RawDataset :=
  (findDatasetsAux lines [] 0).1

/-- One field of an output row: a float64 value (path length or a
coordinate, modelled as a rational) or a verbatim textual energy token. -/
inductive Field where
  | num (q : ℚ)
  | str (t : List Char)
deriving DecidableEq, Repr

/-- The three float64 coordinates parsed from the captured tokens of a
coordinate line. -/
def kOf (g : List Char × List Char × List Char) : ℚ × ℚ × ℚ :=
  (parseDec g.1, parseDec g.2.1, parseDec g.2.2)

/-- The path-length update of convert_to_csv at a coordinate line: when
no previous k-point exists the previous point is taken to be the
current one (so the step is zero), then the Euclidean step length is
added.  The abstract s stands for math.sqrt. -/
def stepPl (s : ℚ → ℚ) (pl : ℚ) (kOld : Option (ℚ × ℚ × ℚ)) (k : ℚ × ℚ × ℚ) : ℚ :=
  let o := kOld.getD k
  pl + s ((k.1 - o.1) ^ 2 + (k.2.1 - o.2.1) ^ 2 + (k.2.2 - o.2.2) ^ 2)

/-- The four numeric fields a coordinate line appends to the pending
output row: the updated path length and the three coordinates. -/
def quad (pl : ℚ) (k : ℚ × ℚ × ℚ) : List Field :=
  [.num pl, .num k.1, .num k.2.1, .num k.2.2]

/-- The line loop of convert_to_csv: state is the running path length,
the pending output row out_line, and the previous k-point k_old.  A
line matching the coordinate pattern appends the updated path length
and the coordinates to the pending row; any other line appends its
extracted tokens to the pending row, emits the row, and clears it. -/
def convertAux (s : ℚ → ℚ) :
    List String → ℚ → List Field → Option (ℚ × ℚ × ℚ) → List (List Field)
  | [], _, _, _ => []
  | line :: rest, pl, out, kOld =>
    match searchCoords line with
    | some g =>
      let k := kOf g
      let pl' := stepPl s pl kOld k
      convertAux s rest pl' (out ++ quad pl' k) (some k)
    | none =>
      (out ++ (tokenizeVal line.data).map Field.str) :: convertAux s rest pl [] kOld

/-- convert_to_csv from the source, restricted to the data rows it
writes (the three leading descriptive comment rows go verbatim to the
external csv writer and carry no algorithmic content). -/
def convert (s : ℚ → ℚ) (ds : RawDataset) : List (List Field) :=
  convertAux s ds.lines 0 [] none

/-- The path-length field a row starts with, when it starts with a
numeric field. -/
def headPath : List Field → Option ℚ
  | .num q :: _ => some q
  | _ => none

/-- The leading path-length values of the emitted rows, in emission
order. -/
def rowPaths (rows : List (List Field)) : List ℚ :=
  rows.filterMap headPath

/-- Python's lexicographic comparison of two strings (as lists of
characters, by code point): the comparison the source applies to the
captured k-point-count strings in the Biggest policy. -/
def chLt : List Char → List Char → Bool
  | [], [] => false
  | [], _ :: _ => true
  | _ :: _, [] => false
  | a :: as, b :: bs => if a < b then true else if b < a then false else chLt as bs

/-- The Biggest selection loop of the source: requested_set starts at 0
and moves to i whenever datasets[i][1] > datasets[requested_set][1],
a lexicographic comparison of the stored strings. -/
def biggestIndex (ds : List RawDataset) : Nat :=
  (List.range ds.length).foldl
    (fun req i =>
      if chLt ((ds.getD req ⟨"", "", []⟩).nkpt.data) ((ds.getD i ⟨"", "", []⟩).nkpt.data)
      then i else req) 0

/-- The diagnostic data of the out-of-range failure of the index
policy: the requested value and the valid inclusive range reported in
the error message. -/
structure RangeErrorInfo where
  requested : Int
  lo : Int
  hi : Int
deriving DecidableEq, Repr

/-- The explicit-index branch of the source: the requested index is
accepted when -len(datasets) <= n <= len(datasets)-1, and otherwise an
IndexError carrying the requested value and exactly that range is
raised. -/
def selectIndex (len : Nat) (n : Int) : Except RangeErrorInfo Int :=
  if -(len : Int) ≤ n ∧ n ≤ (len : Int) - 1 then .ok n
  else .error ⟨n, -(len : Int), (len : Int) - 1⟩

/-- Python list subscription datasets[i]: nonnegative indices from the
front, negative indices from the end, IndexError (here none) outside
[-len, len-1]. -/
def pyGet (l : List RawDataset) (i : Int) : Option RawDataset :=
  let j := if i < 0 then (l.length : Int) + i else i
  if 0 ≤ j ∧ j < (l.length : Int) then l.get? j.toNat else none

/-- The selection policy, as dispatched by the source on the -c
argument: Biggest, Last, or an explicit integer index. -/
inductive Choice where
  | biggest
  | last
  | index (n : Int)
deriving DecidableEq, Repr

/-- How a selection can fail: the empty-input failure (the lookup
datasets[requested_set] on an empty list) or the explicit out-of-range
failure with its diagnostic data. -/
inductive SelectError where
  | emptyInput
  | rangeError (info : RangeErrorInfo)
deriving DecidableEq, Repr

/-- The full selection pipeline of the source: compute requested_set
according to the policy (0 moved by the Biggest loop, -1 for Last, the
range-checked integer for an explicit index), then look the dataset up
with Python subscription semantics. -/
def runSelection (ds : List RawDataset) (c : Choice) : Except SelectError RawDataset :=
  match c with
  | .biggest =>
    match pyGet ds (biggestIndex ds : Int) with
    | some d => .ok d
    | none => .error .emptyInput
  | .last =>
    match pyGet ds (-1) with
    | some d => .ok d
    | none => .error .emptyInput
  | .index n =>
    match selectIndex ds.length n with
    | .error e => .error (.rangeError e)
    | .ok i =>
      match pyGet ds i with
      | some d => .ok d
      | none => .error .emptyInput

/-! ## Shared evaluation lemmas -/

theorem parseDec_00 : parseDec ['0', '.', '0'] = 0 := by
  simp +decide [parseDec, parseUnsigned, digitsToNat]

theorem parseDec_10 : parseDec ['1', '.', '0'] = 1 := by
  simp +decide [parseDec, parseUnsigned, digitsToNat]

theorem parseDec_20 : parseDec ['2', '.', '0'] = 2 := by
  simp +decide [parseDec, parseUnsigned, digitsToNat]

theorem parseDec_30 : parseDec ['3', '.', '0'] = 3 := by
  simp +decide [parseDec, parseUnsigned, digitsToNat]

/-! ## Claim C1 -/

/-- Claim C1 (refuted; code bug): the Biggest loop compares the stored
point-count strings lexicographically and keeps the earlier index on a
draw.  With point counts 2 and 10 it selects index 0 (the string "2"
sorts above "10" character-wise), and with the tie 3, 3 it also selects
index 0 — whereas integer comparison with last-biggest-wins, as the
claim and the program's own help text state, would select index 1 in
both cases.  The last conjunct records that 10 exceeds 2 as integers,
so index 0 is not an integer maximum in the first sequence. -/
theorem c1_biggest_string_compare :
    biggestIndex [⟨"Ha", "2", []⟩, ⟨"Ha", "10", []⟩] = 0
    ∧ biggestIndex [⟨"Ha", "3", []⟩, ⟨"Ha", "3", []⟩] = 0
    ∧ digitsToNat "2".data < digitsToNat "10".data := by decide

/-! ## Claim C4 -/

/-- The concrete round-trip input of the claim. -/
def c4Input : List String :=
  ["Eigenvalues ( Hartree ) for nkpt= 2 k points:",
   "kpt= 0.0 0.0 0.0", "1.0 2.0", "kpt= 1.0 0.0 0.0", "3.0 4.0"]

/-- The single dataset the scanner extracts from the round-trip input. -/
def c4Dataset : RawDataset :=
  ⟨"Hartree", "2", ["kpt= 0.0 0.0 0.0", "1.0 2.0", "kpt= 1.0 0.0 0.0", "3.0 4.0"]⟩

/-- The two expected output rows of the round-trip scenario. -/
def c4Rows : List (List Field) :=
  [[.num 0, .num 0, .num 0, .num 0, .str "1.0".data, .str "2.0".data],
   [.num 1, .num 1, .num 0, .num 0, .str "3.0".data, .str "4.0".data]]

/-- Claim C4: scanning the concrete header-plus-four-lines input yields
one dataset, and converting it yields exactly the two rows
(0, 0, 0, 0, "1.0", "2.0") and (1, 1, 0, 0, "3.0", "4.0"), for any
square-root function that is exact at 0 and 1 (as float64 sqrt is). -/
theorem c4_roundtrip (s : ℚ → ℚ) (h0 : s 0 = 0) (h1 : s 1 = 1) :
    findDatasets c4Input = [c4Dataset] ∧ convert s c4Dataset = c4Rows := by
  constructor
  · decide
  · have hc1 : searchCoords "kpt= 0.0 0.0 0.0" = some ("0.0".data, "0.0".data, "0.0".data) := rfl
    have hc2 : searchCoords "kpt= 1.0 0.0 0.0" = some ("1.0".data, "0.0".data, "0.0".data) := rfl
    have hv1 : searchCoords "1.0 2.0" = none := rfl
    have hv2 : searchCoords "3.0 4.0" = none := rfl
    have hk0 : kOf ("0.0".data, "0.0".data, "0.0".data) = (0, 0, 0) := by
      simp [kOf, parseDec_00]
    have hk1 : kOf ("1.0".data, "0.0".data, "0.0".data) = (1, 0, 0) := by
      simp [kOf, parseDec_00, parseDec_10]
    have e1 : stepPl s 0 none (0, 0, 0) = 0 := by
      simp [stepPl, h0]
    have e2 : stepPl s 0 (some ((0 : ℚ), (0 : ℚ), (0 : ℚ))) (1, 0, 0) = 1 := by
      norm_num [stepPl, h1]
    have ht1 : tokenizeVal "1.0 2.0".data = ["1.0".data, "2.0".data] := by
      simp +decide [tokenizeVal]
    have ht2 : tokenizeVal "3.0 4.0".data = ["3.0".data, "4.0".data] := by
      simp +decide [tokenizeVal]
    simp only [convert, c4Dataset, c4Rows, convertAux, hc1, hc2, hv1, hv2, hk0, hk1,
      e1, e2, ht1, ht2, quad]
    simp

/-- Witness for C4 at the identity square root, which is exact at 0 and 1. -/
theorem c4_roundtrip_wit :
    findDatasets c4Input = [c4Dataset] ∧ convert id c4Dataset = c4Rows :=
  c4_roundtrip id rfl rfl

/-! ## Claim C6 -/

/-- Claim C6: an explicit integer index outside [-len, len-1] makes the
selection fail with the diagnostic carrying the requested value and
exactly that range; inside the range, a negative index selects the
dataset at that offset from the end, and -1 selects the last dataset. -/
theorem c6_index_range (ds : List RawDataset) (n : Int) :
    (¬ (-(ds.length : Int) ≤ n ∧ n ≤ (ds.length : Int) - 1) →
      runSelection ds (.index n) =
        .error (.rangeError ⟨n, -(ds.length : Int), (ds.length : Int) - 1⟩))
    ∧ ((-(ds.length : Int) ≤ n ∧ n < 0) →
      ∃ d, ds.get? (((ds.length : Int) + n).toNat) = some d
        ∧ runSelection ds (.index n) = .ok d)
    ∧ (∀ hne : ds ≠ [], n = -1 →
      runSelection ds (.index n) = .ok (ds.getLast hne)) := by
  refine ⟨fun h => ?_, fun h => ?_, fun hne hn => ?_⟩
  · simp [runSelection, selectIndex, h]
  · have hin : -(ds.length : Int) ≤ n ∧ n ≤ (ds.length : Int) - 1 := ⟨h.1, by omega⟩
    have hj : (((ds.length : Int) + n).toNat) < ds.length := by omega
    refine ⟨ds.get ⟨_, hj⟩, List.get?_eq_get hj, ?_⟩
    simp only [runSelection, selectIndex, if_pos hin, pyGet]
    rw [if_pos h.2, if_pos (by constructor <;> omega)]
    rw [List.get?_eq_get hj]
  · subst hn
    have hlen : 0 < ds.length := List.length_pos.mpr hne
    have hin : -(ds.length : Int) ≤ -1 ∧ (-1 : Int) ≤ (ds.length : Int) - 1 := by
      constructor <;> omega
    have hj : (((ds.length : Int) + (-1)).toNat) < ds.length := by omega
    simp only [runSelection, selectIndex, if_pos hin, pyGet]
    rw [if_pos (show (-1 : Int) < 0 by norm_num),
      if_pos (show (0 : Int) ≤ (ds.length : Int) + (-1) ∧
        (ds.length : Int) + (-1) < (ds.length : Int) by constructor <;> omega)]
    rw [List.get?_eq_get hj]
    have hgl : ds.getLast hne = ds.get ⟨ds.length - 1, by omega⟩ :=
      List.getLast_eq_get ds hne
    rw [hgl]
    have hidx : (⟨(((ds.length : Int) + (-1)).toNat), hj⟩ : Fin ds.length) =
        ⟨ds.length - 1, by omega⟩ := by
      simp only [Fin.mk.injEq]
      omega
    rw [hidx]

/-- Witness for C6 on a two-dataset list: index 5 is rejected with the
range [-2, 1] in the diagnostic, and index -1 selects the last dataset. -/
theorem c6_index_range_wit :
    runSelection [⟨"Ha", "1", []⟩, ⟨"Ha", "2", []⟩] (.index 5) =
      .error (.rangeError ⟨5, -2, 1⟩)
    ∧ runSelection [⟨"Ha", "1", []⟩, ⟨"Ha", "2", []⟩] (.index (-1)) =
      .ok ⟨"Ha", "2", []⟩ :=
  ⟨(c6_index_range [⟨"Ha", "1", []⟩, ⟨"Ha", "2", []⟩] 5).1 (by decide),
   (c6_index_range [⟨"Ha", "1", []⟩, ⟨"Ha", "2", []⟩] (-1)).2.2 (by decide) rfl⟩

/-! ## Claim C7 -/

/-- Claim C7: on the empty dataset sequence the Biggest and Last
policies fail with the empty-input error (the dataset lookup finds
nothing), and every explicit index fails, the reported valid range
[0, -1] being empty. -/
theorem c7_empty_input (n : Int) :
    runSelection [] .biggest = .error .emptyInput
    ∧ runSelection [] .last = .error .emptyInput
    ∧ runSelection [] (.index n) = .error (.rangeError ⟨n, 0, -1⟩) := by
  refine ⟨rfl, rfl, ?_⟩
  have hsel : selectIndex 0 n = .error ⟨n, 0, -1⟩ := by
    unfold selectIndex
    rw [if_neg (by omega)]
    simp
  simp [runSelection, hsel]

/-! ## Row-count helper for the converter -/

theorem convertAux_length (s : ℚ → ℚ) :
    ∀ (lines : List String) (pl : ℚ) (out : List Field) (kOld : Option (ℚ × ℚ × ℚ)),
    (convertAux s lines pl out kOld).length =
      lines.countP (fun l => (searchCoords l).isNone) := by
  intro lines
  induction lines with
  | nil => intro pl out kOld; simp [convertAux]
  | cons line rest ih =>
    intro pl out kOld
    rw [convertAux]
    cases h : searchCoords line with
    | some g =>
      simp only [h]
      rw [ih]
      simp [List.countP_cons, h]
    | none =>
      simp only [h, List.length_cons]
      rw [ih]
      simp [List.countP_cons, h]

/-! ## Claim C8 -/

/-- The truncated input of the claim: a header declaring 3 k-points
whose file ends after only 2 coordinate/value pairs. -/
def c8Input : List String :=
  ["Eigenvalues ( Hartree ) for nkpt= 3 k points:",
   "kpt= 0.0 0.0 0.0", "1.0", "kpt= 0.0 0.0 0.0", "2.0"]

/-- The four block lines the scanner stores for the truncated input. -/
def c8Lines : List String :=
  ["kpt= 0.0 0.0 0.0", "1.0", "kpt= 0.0 0.0 0.0", "2.0"]

/-- Claim C8: when the stream ends inside a declared block the scanner
returns the final dataset with fewer lines than twice the declared
point count instead of failing (the leftover countdown is 2 here and
the dataset keeps 4 < 6 lines); converting the truncated dataset emits
exactly one row per complete coordinate/values pair (2 rows), and a
trailing unpaired coordinate line adds no row. -/
theorem c8_truncated_dataset (s : ℚ → ℚ) :
    findDatasetsAux c8Input [] 0 = ([⟨"Hartree", "3", c8Lines⟩], 2)
    ∧ c8Lines.length < 2 * digitsToNat "3".data
    ∧ (convert s ⟨"Hartree", "3", c8Lines⟩).length = 2
    ∧ (convert s ⟨"Hartree", "3", c8Lines ++ ["kpt= 0.0 0.0 0.0"]⟩).length = 2 := by
  refine ⟨by decide, by decide, ?_, ?_⟩
  · rw [convert, convertAux_length]
    decide
  · rw [convert, convertAux_length]
    decide

/-! ## Claim C9 -/

theorem appendToLast_ne_nil (acc : List RawDataset) (l : String) (h : acc ≠ []) :
    appendToLast acc l ≠ [] := by
  match acc with
  | [] => exact absurd rfl h
  | [d] => simp [appendToLast]
  | d :: d₂ :: ds => simp [appendToLast]

theorem appendToLast_append (acc₁ : List RawDataset) :
    ∀ (acc₂ : List RawDataset) (l : String), acc₂ ≠ [] →
    appendToLast (acc₁ ++ acc₂) l = acc₁ ++ appendToLast acc₂ l := by
  induction acc₁ with
  | nil => intro acc₂ l _; simp
  | cons a acc₁ ih =>
    intro acc₂ l h
    have hne : acc₁ ++ acc₂ ≠ [] := fun hnil => h (List.append_eq_nil.mp hnil).2
    obtain ⟨b, bs, hx⟩ := List.exists_cons_of_ne_nil hne
    have hstep : appendToLast (a :: (acc₁ ++ acc₂)) l =
        a :: appendToLast (acc₁ ++ acc₂) l := by
      rw [hx]
      rfl
    simp only [List.cons_append]
    rw [hstep, ih acc₂ l h]

/-- Datasets already accumulated before the current one are never
touched again by the scanner loop: the loop state can be split off. -/
theorem findDatasetsAux_append :
    ∀ (lines : List String) (acc₁ acc₂ : List RawDataset) (k : Nat),
    (k ≠ 0 → acc₂ ≠ []) →
    findDatasetsAux lines (acc₁ ++ acc₂) k =
      (acc₁ ++ (findDatasetsAux lines acc₂ k).1, (findDatasetsAux lines acc₂ k).2) := by
  intro lines
  induction lines with
  | nil => intro acc₁ acc₂ k _; simp [findDatasetsAux]
  | cons line rest ih =>
    intro acc₁ acc₂ k h
    match k with
    | 0 =>
      cases hh : searchHeader line with
      | some p =>
        obtain ⟨u, n⟩ := p
        simp only [findDatasetsAux, hh]
        rw [List.append_assoc]
        exact ih acc₁ (acc₂ ++ [⟨u, n, []⟩]) _ (fun _ => by simp)
      | none =>
        simp only [findDatasetsAux, hh]
        exact ih acc₁ acc₂ 0 (fun hk => absurd rfl hk)
    | k' + 1 =>
      have hne : acc₂ ≠ [] := h (Nat.succ_ne_zero k')
      simp only [findDatasetsAux]
      rw [appendToLast_append acc₁ acc₂ line hne]
      exact ih acc₁ (appendToLast acc₂ line) k'
        (fun _ => appendToLast_ne_nil acc₂ line hne)

/-- Claim C9: a header declaring zero k-points appends a dataset with an
empty line block and the scanner immediately resumes seeking headers:
the rest of the stream is scanned exactly as a fresh stream, so its
first line can itself open a new dataset. -/
theorem c9_zero_point_header (line : String) (u n : String) (rest : List String)
    (hh : searchHeader line = some (u, n)) (h0 : digitsToNat n.data = 0) :
    findDatasets (line :: rest) = ⟨u, n, []⟩ :: findDatasets rest := by
  have hsplit := findDatasetsAux_append rest [⟨u, n, []⟩] [] 0 (fun hk => absurd rfl hk)
  simp only [List.append_nil] at hsplit
  rw [findDatasets]
  simp only [findDatasetsAux, hh, h0, Nat.zero_mul, List.nil_append]
  rw [hsplit, findDatasets]
  simp

/-- Witness for C9: two consecutive zero-point headers give two
datasets, the first closed instantly with no lines. -/
theorem c9_zero_point_header_wit :
    findDatasets ["Eigenvalues ( eV ) for nkpt= 0 k points:",
      "Eigenvalues ( eV ) for nkpt= 0 k points:"] =
      (⟨"eV", "0", []⟩ : RawDataset) ::
        findDatasets ["Eigenvalues ( eV ) for nkpt= 0 k points:"] :=
  c9_zero_point_header "Eigenvalues ( eV ) for nkpt= 0 k points:" "eV" "0"
    ["Eigenvalues ( eV ) for nkpt= 0 k points:"] (by decide) (by decide)

/-! ## Claim C10 -/

/-- Claim C10: the converter writes exactly one row per stored line not
matching the coordinate pattern.  A leading non-coordinate line emits a
row holding just its extracted tokens; two leading non-coordinate lines
emit two such rows; and two consecutive leading coordinate lines
accumulate both path-length/coordinate quadruples into the single next
emitted row. -/
theorem c10_row_emission (s : ℚ → ℚ) (ds : RawDataset) :
    (convert s ds).length = ds.lines.countP (fun l => (searchCoords l).isNone)
    ∧ (∀ l rest, ds.lines = l :: rest → searchCoords l = none →
        (convert s ds).head? = some ((tokenizeVal l.data).map Field.str))
    ∧ (∀ l₁ l₂ rest, ds.lines = l₁ :: l₂ :: rest →
        searchCoords l₁ = none → searchCoords l₂ = none →
        (convert s ds).take 2 =
          [(tokenizeVal l₁.data).map Field.str, (tokenizeVal l₂.data).map Field.str])
    ∧ (∀ c₁ c₂ v rest g₁ g₂, ds.lines = c₁ :: c₂ :: v :: rest →
        searchCoords c₁ = some g₁ → searchCoords c₂ = some g₂ →
        searchCoords v = none →
        (convert s ds).head? = some
          (quad (stepPl s 0 none (kOf g₁)) (kOf g₁)
            ++ quad (stepPl s (stepPl s 0 none (kOf g₁)) (some (kOf g₁)) (kOf g₂)) (kOf g₂)
            ++ (tokenizeVal v.data).map Field.str)) := by
  refine ⟨?_, ?_, ?_, ?_⟩
  · rw [convert, convertAux_length]
  · intro l rest hl hn
    rw [convert, hl]
    simp only [convertAux, hn]
    simp
  · intro l₁ l₂ rest hl hn₁ hn₂
    rw [convert, hl]
    simp only [convertAux, hn₁, hn₂]
    simp
  · intro c₁ c₂ v rest g₁ g₂ hl hg₁ hg₂ hn
    rw [convert, hl]
    simp only [convertAux, hg₁, hg₂, hn]
    simp [List.append_assoc]

/-- Witness for C10 on a dataset whose block is two identical
coordinate lines followed by one values line: the single emitted row
carries both quadruples and then the tokens. -/
theorem c10_row_emission_wit :
    (convert id ⟨"Ha", "2",
        ["kpt= 0.0 0.0 0.0", "kpt= 0.0 0.0 0.0", "7.5"]⟩).head? = some
      (quad (stepPl id 0 none (kOf ("0.0".data, "0.0".data, "0.0".data)))
          (kOf ("0.0".data, "0.0".data, "0.0".data))
        ++ quad (stepPl id (stepPl id 0 none (kOf ("0.0".data, "0.0".data, "0.0".data)))
            (some (kOf ("0.0".data, "0.0".data, "0.0".data)))
            (kOf ("0.0".data, "0.0".data, "0.0".data)))
          (kOf ("0.0".data, "0.0".data, "0.0".data))
        ++ (tokenizeVal "7.5".data).map Field.str) :=
  (c10_row_emission id ⟨"Ha", "2", ["kpt= 0.0 0.0 0.0", "kpt= 0.0 0.0 0.0", "7.5"]⟩).2.2.2
    "kpt= 0.0 0.0 0.0" "kpt= 0.0 0.0 0.0" "7.5" []
    ("0.0".data, "0.0".data, "0.0".data) ("0.0".data, "0.0".data, "0.0".data)
    rfl rfl rfl rfl

/-! ## Claim C2 -/

theorem mem_of_dropLast_getLast (acc : List RawDataset) (P : RawDataset → Prop)
    (h1 : ∀ d ∈ acc.dropLast, P d) (h2 : ∀ dl, acc.getLast? = some dl → P dl) :
    ∀ d ∈ acc, P d := by
  rcases List.eq_nil_or_concat acc with hnil | ⟨l', a, hx⟩
  · subst hnil
    intro d hd
    exact absurd hd (List.not_mem_nil d)
  · rw [List.concat_eq_append] at hx
    subst hx
    intro d hd
    rcases List.mem_append.mp hd with hmem | hmem
    · exact h1 d (by rw [List.dropLast_concat]; exact hmem)
    · rw [List.mem_singleton.mp hmem]
      exact h2 a (List.getLast?_concat l')

theorem appendToLast_concat (l' : List RawDataset) (a : RawDataset) (line : String) :
    appendToLast (l' ++ [a]) line = l' ++ [{ a with lines := a.lines ++ [line] }] := by
  rw [appendToLast_append l' [a] line (by simp)]
  rfl

/-- While scanning, every dataset but the last is complete, and the
last one is short of complete by exactly the remaining countdown. -/
theorem findDatasetsAux_complete :
    ∀ (lines : List String) (acc : List RawDataset) (k : Nat),
    (∀ d ∈ acc.dropLast, d.lines.length = 2 * digitsToNat d.nkpt.data) →
    (acc = [] → k = 0) →
    (∀ dl, acc.getLast? = some dl →
      dl.lines.length + k = 2 * digitsToNat dl.nkpt.data) →
    (findDatasetsAux lines acc k).2 = 0 →
    ∀ d ∈ (findDatasetsAux lines acc k).1,
      d.lines.length = 2 * digitsToNat d.nkpt.data := by
  intro lines
  induction lines with
  | nil =>
    intro acc k hdrop _ hlast hk
    simp only [findDatasetsAux] at hk ⊢
    exact mem_of_dropLast_getLast acc _ hdrop
      (fun dl hdl => by have := hlast dl hdl; omega)
  | cons line rest ih =>
    intro acc k hdrop hnil hlast hk
    match k with
    | 0 =>
      cases hh : searchHeader line with
      | some p =>
        obtain ⟨u, n⟩ := p
        simp only [findDatasetsAux, hh] at hk ⊢
        refine ih (acc ++ [⟨u, n, []⟩]) _ ?_ (by simp) ?_ hk
        · rw [List.dropLast_concat]
          exact mem_of_dropLast_getLast acc _ hdrop
            (fun dl hdl => by have := hlast dl hdl; omega)
        · intro dl hdl
          rw [List.getLast?_concat] at hdl
          cases hdl
          simp
          omega
      | none =>
        simp only [findDatasetsAux, hh] at hk ⊢
        exact ih acc 0 hdrop hnil hlast hk
    | k' + 1 =>
      have hne : acc ≠ [] := fun h => Nat.succ_ne_zero k' (hnil h)
      rcases List.eq_nil_or_concat acc with hx | ⟨l', a, hx⟩
      · exact absurd hx hne
      rw [List.concat_eq_append] at hx
      subst hx
      simp only [findDatasetsAux, appendToLast_concat] at hk ⊢
      refine ih (l' ++ [{ a with lines := a.lines ++ [line] }]) k' ?_ (by simp) ?_ hk
      · rw [List.dropLast_concat]
        intro d hd
        exact hdrop d (by rw [List.dropLast_concat]; exact hd)
      · intro dl hdl
        rw [List.getLast?_concat] at hdl
        cases hdl
        have := hlast a (List.getLast?_concat l')
        simp at this ⊢
        omega

/-- Claim C2: when the stream does not end inside a declared block (the
final countdown is 0), every dataset the scanner produced stores
exactly twice its declared point count of lines: block lines are
consumed by countdown, so each fully present block closes exactly at
its declared size. -/
theorem c2_closed_blocks_complete (lines : List String)
    (h : (findDatasetsAux lines [] 0).2 = 0) :
    ∀ d ∈ findDatasets lines, d.lines.length = 2 * digitsToNat d.nkpt.data :=
  findDatasetsAux_complete lines [] 0 (by simp) (fun _ => rfl) (by simp) h

/-- Witness for C2 on the round-trip input: the scan ends with
countdown 0 and the one dataset has 4 = 2 * 2 lines. -/
theorem c2_closed_blocks_complete_wit :
    c4Dataset.lines.length = 2 * digitsToNat c4Dataset.nkpt.data :=
  c2_closed_blocks_complete c4Input (by decide) c4Dataset (by decide)

/-! ## Claim C3 -/

theorem headPath_nil : headPath [] = none := rfl

theorem headPath_num (q : ℚ) (fs : List Field) :
    headPath (Field.num q :: fs) = some q := rfl

theorem headPath_str (t : List Char) (fs : List Field) :
    headPath (Field.str t :: fs) = none := rfl

theorem headPath_num_cons (q : ℚ) (fs l₂ : List Field) :
    headPath ((Field.num q :: fs) ++ l₂) = some q := rfl

theorem headPath_str_cons (t : List Char) (fs l₂ : List Field) :
    headPath ((Field.str t :: fs) ++ l₂) = none := rfl

theorem headPath_map_str (ts : List (List Char)) :
    headPath (ts.map Field.str) = none := by
  cases ts <;> rfl

theorem headPath_quad (pl : ℚ) (k : ℚ × ℚ × ℚ) :
    headPath (quad pl k) = some pl := rfl

theorem chain_le_head_weaken {y x : ℚ} {l : List ℚ}
    (h : List.Chain' (· ≤ ·) (x :: l)) (hyx : y ≤ x) :
    List.Chain' (· ≤ ·) (y :: l) := by
  cases l with
  | nil => simp
  | cons a l =>
    rw [List.chain'_cons] at h ⊢
    exact ⟨le_trans hyx h.1, h.2⟩

theorem le_stepPl (s : ℚ → ℚ) (hs : ∀ x, 0 ≤ x → 0 ≤ s x) (pl : ℚ)
    (kOld : Option (ℚ × ℚ × ℚ)) (k : ℚ × ℚ × ℚ) : pl ≤ stepPl s pl kOld k := by
  rw [stepPl]
  refine le_add_of_nonneg_right (hs _ ?_)
  positivity

/-- The leading path values of all rows still to be emitted, preceded by
the path of the pending row (or the running path length when the
pending row has none), form a non-decreasing chain. -/
theorem convertAux_paths_chain (s : ℚ → ℚ) (hs : ∀ x, 0 ≤ x → 0 ≤ s x) :
    ∀ (lines : List String) (pl : ℚ) (out : List Field) (kOld : Option (ℚ × ℚ × ℚ)),
    (∀ p, headPath out = some p → p ≤ pl) →
    List.Chain' (· ≤ ·)
      (((headPath out).getD pl) :: rowPaths (convertAux s lines pl out kOld)) := by
  intro lines
  induction lines with
  | nil =>
    intro pl out kOld _
    simp [convertAux, rowPaths]
  | cons line rest ih =>
    intro pl out kOld hout
    rw [convertAux]
    cases hc : searchCoords line with
    | some g =>
      simp only [hc]
      have hple : pl ≤ stepPl s pl kOld (kOf g) := le_stepPl s hs pl kOld (kOf g)
      cases out with
      | nil =>
        rw [List.nil_append]
        have hrec := ih (stepPl s pl kOld (kOf g))
          (quad (stepPl s pl kOld (kOf g)) (kOf g)) (some (kOf g))
          (fun p hp => by
            rw [headPath_quad] at hp
            cases Option.some.inj hp
            exact le_refl _)
        simp only [headPath_quad, headPath_nil, Option.getD_none, Option.getD_some]
          at hrec ⊢
        exact chain_le_head_weaken hrec hple
      | cons f fs =>
        cases f with
        | num q =>
          have hq : q ≤ pl := hout q (headPath_num q fs)
          have hrec := ih (stepPl s pl kOld (kOf g))
            ((Field.num q :: fs) ++ quad (stepPl s pl kOld (kOf g)) (kOf g)) (some (kOf g))
            (fun p hp => by
              rw [headPath_num_cons] at hp
              cases Option.some.inj hp
              exact le_trans hq hple)
          simp only [headPath_num_cons, headPath_num, Option.getD_some] at hrec ⊢
          exact hrec
        | str t =>
          have hrec := ih (stepPl s pl kOld (kOf g))
            ((Field.str t :: fs) ++ quad (stepPl s pl kOld (kOf g)) (kOf g)) (some (kOf g))
            (fun p hp => by rw [headPath_str_cons] at hp; cases hp)
          simp only [headPath_str_cons, headPath_str, Option.getD_none] at hrec ⊢
          exact chain_le_head_weaken hrec hple
    | none =>
      simp only [hc]
      have hrec := ih pl [] kOld (fun p hp => by rw [headPath_nil] at hp; cases hp)
      rw [headPath_nil, Option.getD_none] at hrec
      simp only [rowPaths] at hrec ⊢
      cases out with
      | nil =>
        simp only [List.nil_append, List.filterMap_cons, headPath_map_str,
          headPath_nil, Option.getD_none]
        exact hrec
      | cons f fs =>
        cases f with
        | num q =>
          have hq : q ≤ pl := hout q (headPath_num q fs)
          simp only [List.filterMap_cons, headPath_num_cons, headPath_num,
            Option.getD_some]
          rw [List.chain'_cons]
          exact ⟨le_refl q, chain_le_head_weaken hrec hq⟩
        | str t =>
          simp only [List.filterMap_cons, headPath_str_cons, headPath_str,
            Option.getD_none]
          exact hrec

/-- Once the pending row starts with a path value, the next emitted row
(if any) starts with that same path value. -/
theorem convertAux_head_of_pending (s : ℚ → ℚ) :
    ∀ (lines : List String) (pl : ℚ) (out : List Field) (kOld : Option (ℚ × ℚ × ℚ))
      (p : ℚ), headPath out = some p →
    ∀ r, (convertAux s lines pl out kOld).head? = some r → headPath r = some p := by
  intro lines
  induction lines with
  | nil =>
    intro pl out kOld p _ r hr
    simp [convertAux] at hr
  | cons line rest ih =>
    intro pl out kOld p hp r hr
    rw [convertAux] at hr
    cases out with
    | nil => exact absurd hp (by rw [headPath_nil]; simp)
    | cons f fs =>
      cases f with
      | num q =>
        rw [show headPath (Field.num q :: fs) = some q from rfl] at hp
        obtain rfl : q = p := Option.some.inj hp
        cases hc : searchCoords line with
        | some g =>
          simp only [hc] at hr
          exact ih _ _ _ q (headPath_num_cons q fs _) r hr
        | none =>
          simp only [hc, List.head?_cons, Option.some.injEq] at hr
          rw [← hr]
          exact headPath_num_cons q fs _
      | str t =>
        exact absurd hp (by rw [show headPath (Field.str t :: fs) = none from rfl]; simp)

/-- Claim C3: the leading path-length values of the emitted rows are
monotonically non-decreasing, and when the block starts with a
coordinate line the first emitted row carries path length exactly 0
(the first coordinate line initialises the previous k-point to itself,
so its step is sqrt 0 = 0). -/
theorem c3_path_monotone (s : ℚ → ℚ) (hs : ∀ x, 0 ≤ x → 0 ≤ s x) (hs0 : s 0 = 0)
    (ds : RawDataset) :
    List.Chain' (· ≤ ·) (rowPaths (convert s ds))
    ∧ (∀ l rest, ds.lines = l :: rest → (searchCoords l).isSome = true →
        ∀ r, (convert s ds).head? = some r → headPath r = some 0) := by
  constructor
  · have h := convertAux_paths_chain s hs ds.lines 0 [] none
      (fun p hp => by rw [headPath_nil] at hp; cases hp)
    rw [headPath_nil, Option.getD_none] at h
    rw [convert]
    exact (List.chain'_cons'.mp h).2
  · intro l rest hl hsome r hr
    obtain ⟨g, hg⟩ := Option.isSome_iff_exists.mp hsome
    rw [convert, hl] at hr
    simp only [convertAux, hg] at hr
    have hpl0 : stepPl s 0 none (kOf g) = 0 := by
      simp [stepPl, hs0]
    rw [hpl0] at hr
    exact convertAux_head_of_pending s rest 0 ([] ++ quad 0 (kOf g)) (some (kOf g)) 0
      (by rw [List.nil_append]; exact headPath_quad 0 (kOf g)) r hr

/-- Witness for C3 at the constant-zero square root on a one-point
dataset whose block starts with a coordinate line: the path chain is
non-decreasing and the first emitted row starts with path 0. -/
theorem c3_path_monotone_wit :
    List.Chain' (· ≤ ·)
      (rowPaths (convert (fun _ => (0 : ℚ)) ⟨"Ha", "1", ["kpt= 1.0 2.0 3.0", "5.0"]⟩))
    ∧ headPath
        (([] ++ quad (stepPl (fun _ => (0 : ℚ)) 0 none
            (kOf ("1.0".data, "2.0".data, "3.0".data)))
          (kOf ("1.0".data, "2.0".data, "3.0".data))) ++
          (tokenizeVal "5.0".data).map Field.str) = some 0 :=
  ⟨(c3_path_monotone (fun _ => (0 : ℚ)) (fun _ _ => le_refl 0) rfl
      ⟨"Ha", "1", ["kpt= 1.0 2.0 3.0", "5.0"]⟩).1,
   (c3_path_monotone (fun _ => (0 : ℚ)) (fun _ _ => le_refl 0) rfl
      ⟨"Ha", "1", ["kpt= 1.0 2.0 3.0", "5.0"]⟩).2 "kpt= 1.0 2.0 3.0" ["5.0"] rfl rfl _ rfl⟩

/-! ## Claim C5 -/

/-- Modelled from the spec: signed-decimal-number syntax, an optional
leading minus, one or more digits, and optionally a decimal point
followed by digits.  Used only to compare the spec's wording against
the source's character-class tokenizer. -/
def isSignedDecimal (l : List Char) : Bool :=
  let body := match l with
    | '-' :: r => r
    | _ => l
  let ds := body.takeWhile Char.isDigit
  !ds.isEmpty && (match body.dropWhile Char.isDigit with
    | [] => true
    | '.' :: fr => fr.all Char.isDigit
    | _ => false)

/-- Claim C5 counterexample: on the line "a-b" the extraction returns
the token "-", which does not match signed-decimal-number syntax, so
the extraction is not the maximal signed-decimal substrings. -/
theorem c5_counterexample :
    tokenizeVal "a-b".data = [['-']] ∧ isSignedDecimal ['-'] = false := by
  constructor
  · simp +decide [tokenizeVal]
  · decide

/-- A decomposition of a character list into the maximal runs of
value-class characters: non-class characters separate, and each run is
non-empty, wholly in the class, and not extendable to the right. -/
inductive RunDecomp : List Char → List (List Char) → Prop
  | nil : RunDecomp [] []
  | sep {c : Char} {rest : List Char} {ts : List (List Char)} :
      isValChar c = false → RunDecomp rest ts → RunDecomp (c :: rest) ts
  | run {t rest : List Char} {ts : List (List Char)} :
      t ≠ [] → (∀ c ∈ t, isValChar c = true) →
      (∀ c, rest.head? = some c → isValChar c = false) →
      RunDecomp rest ts → RunDecomp (t ++ rest) (t :: ts)

theorem mem_takeWhile_val : ∀ (l : List Char) (c : Char),
    c ∈ l.takeWhile isValChar → isValChar c = true := by
  intro l
  induction l with
  | nil => intro c h; simp at h
  | cons a rest ih =>
    intro c h
    rw [List.takeWhile_cons] at h
    by_cases ha : isValChar a
    · rw [if_pos ha] at h
      rcases List.mem_cons.mp h with rfl | h2
      · exact ha
      · exact ih c h2
    · rw [if_neg ha] at h
      exact absurd h (List.not_mem_nil c)

theorem head_dropWhile_not_val : ∀ (l : List Char) (c : Char),
    (l.dropWhile isValChar).head? = some c → isValChar c = false := by
  intro l
  induction l with
  | nil => intro c h; simp at h
  | cons a rest ih =>
    intro c h
    rw [List.dropWhile_cons] at h
    by_cases ha : isValChar a
    · rw [if_pos ha] at h
      exact ih c h
    · rw [if_neg ha] at h
      cases Option.some.inj h
      simpa using ha

theorem takeWhile_append_all (p : Char → Bool) :
    ∀ (t rest : List Char), (∀ c ∈ t, p c = true) →
    (t ++ rest).takeWhile p = t ++ rest.takeWhile p := by
  intro t
  induction t with
  | nil => intro rest _; simp
  | cons a t ih =>
    intro rest h
    rw [List.cons_append, List.takeWhile_cons, if_pos (h a (by simp)),
      ih rest (fun c hc => h c (by simp [hc])), List.cons_append]

theorem dropWhile_append_all (p : Char → Bool) :
    ∀ (t rest : List Char), (∀ c ∈ t, p c = true) →
    (t ++ rest).dropWhile p = rest.dropWhile p := by
  intro t
  induction t with
  | nil => intro rest _; simp
  | cons a t ih =>
    intro rest h
    rw [List.cons_append, List.dropWhile_cons, if_pos (h a (by simp)),
      ih rest (fun c hc => h c (by simp [hc]))]

/-- The tokenizer's output is a maximal-run decomposition. -/
theorem runDecomp_tokenizeVal (l : List Char) : RunDecomp l (tokenizeVal l) := by
  generalize hn : l.length = n
  induction n using Nat.strong_induction_on generalizing l with
  | _ n ih =>
    match l, hn with
    | [], _ =>
      simp only [tokenizeVal]
      exact .nil
    | c :: rest, hn =>
      by_cases hc : isValChar c
      · simp only [tokenizeVal]
        rw [if_pos hc]
        have hd : RunDecomp (rest.dropWhile isValChar)
            (tokenizeVal (rest.dropWhile isValChar)) :=
          ih (rest.dropWhile isValChar).length
            (by
              rw [← hn]
              simp only [List.length_cons]
              exact Nat.lt_succ_of_le (dropWhile_length_le isValChar rest))
            _ rfl
        have hsplit : (c :: rest : List Char) =
            (c :: rest.takeWhile isValChar) ++ rest.dropWhile isValChar := by
          rw [List.cons_append, List.takeWhile_append_dropWhile]
        rw [hsplit]
        exact RunDecomp.run (List.cons_ne_nil _ _)
          (fun x hx => by
            rcases List.mem_cons.mp hx with rfl | hx2
            · exact hc
            · exact mem_takeWhile_val rest x hx2)
          (head_dropWhile_not_val rest)
          hd
      · simp only [tokenizeVal]
        rw [if_neg hc]
        exact RunDecomp.sep (by simpa using hc)
          (ih rest.length (by rw [← hn]; simp) rest rfl)

/-- The tokenizer's output is the only maximal-run decomposition. -/
theorem runDecomp_unique {l : List Char} {ts : List (List Char)}
    (h : RunDecomp l ts) : ts = tokenizeVal l := by
  induction h with
  | nil => simp [tokenizeVal]
  | sep hc _ ih =>
    simp only [tokenizeVal]
    rw [if_neg (by simp [hc])]
    exact ih
  | @run t rest ts' tne tall hhead _ ih =>
    obtain ⟨c, t', rfl⟩ := List.exists_cons_of_ne_nil tne
    rw [List.cons_append]
    simp only [tokenizeVal]
    rw [if_pos (tall c (by simp))]
    have htw : (t' ++ rest).takeWhile isValChar = t' := by
      rw [takeWhile_append_all isValChar t' rest (fun x hx => tall x (by simp [hx]))]
      cases hr : rest with
      | nil => simp
      | cons r rs =>
        have hrv := hhead r (by rw [hr]; rfl)
        rw [List.takeWhile_cons, if_neg (by simp [hrv])]
        simp
    have hdw : (t' ++ rest).dropWhile isValChar = rest := by
      rw [dropWhile_append_all isValChar t' rest (fun x hx => tall x (by simp [hx]))]
      cases hr : rest with
      | nil => simp
      | cons r rs =>
        have hrv := hhead r (by rw [hr]; rfl)
        rw [List.dropWhile_cons, if_neg (by simp [hrv])]
    rw [htw, hdw, ih]

/-- Claim C5 (amended): numeric-token extraction returns exactly the
maximal runs of characters from the class minus/digit/dot, in
left-to-right order with duplicates kept (a maximal-run decomposition
exists and is unique, and it is the tokenizer's output); and the
extracted tokens are emitted into the output row verbatim as textual
fields, never re-parsed to numbers. -/
theorem c5_maximal_runs (l : List Char) (ts : List (List Char)) :
    (RunDecomp l ts ↔ ts = tokenizeVal l)
    ∧ (∀ (s : ℚ → ℚ) (line : String) (rest : List String) (pl : ℚ)
        (out : List Field) (kOld : Option (ℚ × ℚ × ℚ)),
        searchCoords line = none →
        convertAux s (line :: rest) pl out kOld =
          (out ++ (tokenizeVal line.data).map Field.str) :: convertAux s rest pl [] kOld) := by
  constructor
  · exact ⟨runDecomp_unique, fun h => by rw [h]; exact runDecomp_tokenizeVal l⟩
  · intro s line rest pl out kOld hn
    rw [convertAux]
    simp only [hn]

/-- Witness for C5 (amended) on the line "a-b" and a one-line value
block. -/
theorem c5_maximal_runs_wit :
    RunDecomp "a-b".data (tokenizeVal "a-b".data)
    ∧ convertAux id ["7.5"] 0 [] none =
      (([] : List Field) ++ (tokenizeVal "7.5".data).map Field.str) ::
        convertAux id [] 0 [] none :=
  ⟨(c5_maximal_runs "a-b".data (tokenizeVal "a-b".data)).1.mpr rfl,
   (c5_maximal_runs [] []).2 id "7.5" [] 0 [] none rfl⟩

end AbinitBands
